import Mathlib

/-!
Verification of the Context Resolution Engine of the resume-creator backend
(`src/backend/app/main.py`, helper `_build_resume_context`, and
`src/backend/app/docx_utils.py`).

The engine is embedded shallowly: Python dictionaries (which preserve
insertion order) become association lists, SQL rows become `Record`s,
and the Python scalar values that can inhabit a row or a context become
the inductive type `Value`.  Machinery that is pure I/O (SQLAlchemy
queries, HTTP plumbing) is modelled by passing the fetch results in as
`Option`-typed parameters, mirroring exactly the checks the code makes
on them.
-/

namespace Resume

/-- A Python value as it occurs in DB rows and assembled contexts:
strings, integers, booleans, temporal values (we carry both their
`str()` form and their `isoformat()` form, which differ for `datetime`),
`None`, and — for the assembled context — nested dicts and lists. -/
inductive Value where
  | str (s : String)
  | num (n : Int)
  | bool (b : Bool)
  | temporal (strForm : String) (isoForm : String)
  | null
  | dict (entries : List (String × Value))
  | list (items : List Value)

/-- A DB row / context row: an insertion-ordered mapping from column
name to value, as `dict(result)` produces in the Python code. -/
abbrev Record := List (String × Value)

/-- The assembled context (`context = {}` in `_build_resume_context`). -/
abbrev Ctx := List (String × Value)

/-- Python `d[k]` / `k in d`: exact string-keyed lookup. -/
def dictGet {β : Type} (k : String) : List (String × β) → Option β
  | [] => none
  | (k2, v) :: rest => if k2 = k then some v else dictGet k rest

/-- Python `d[k] = v`: overwrite in place if the key exists (keeping its
position, as CPython dicts do), append otherwise. -/
def dictInsert {β : Type} (k : String) (v : β) : List (String × β) → List (String × β)
  | [] => [(k, v)]
  | (k2, v2) :: rest => if k2 = k then (k, v) :: rest else (k2, v2) :: dictInsert k v rest

/-- Python `s.lower()`.  (Character-wise case folding; stated over the
character list so that it evaluates by kernel reduction.  `str.lower`
and `Char.toLower` agree on the basic-latin letters involved here, and
both leave CJK characters unchanged.) -/
def lowerStr (s : String) : String := String.mk (s.toList.map Char.toLower)

/-- `col.lower().replace("_", "")` — the fuzzy-match normalisation
(main.py lines 275 and 337): lower-case, then delete every underscore. -/
def normKey (s : String) : String :=
  String.mk ((s.toList.map Char.toLower).filter (fun c => c != '_'))

/-- Python `s.strip()`: drop leading and trailing whitespace. -/
def pyStrip (s : String) : String :=
  String.mk (((s.toList.dropWhile Char.isWhitespace).reverse.dropWhile Char.isWhitespace).reverse)

/-- Python `s.startswith(pat)`. -/
def strStartsWith (s pat : String) : Bool := pat.toList.isPrefixOf s.toList

/-- Python `s[2:]`. -/
def strDropTwo (s : String) : String := String.mk (s.toList.drop 2)

/-- Python's substring containment `pat in s`. -/
def strContainsSub (s pat : String) : Bool :=
  s.toList.tails.any (fun t => pat.toList.isPrefixOf t)

/-- Tiers 2 and 3 of field resolution, shared verbatim between the
person block (main.py 329-343) and the project block (268-280):
exact key match, then first fuzzy match in record-key iteration order,
then the empty-string fallback. -/
def resolveAuto (cleanKey : String) (record : Record) : Value :=
  match dictGet cleanKey record with
  | some v => v
  | none =>
    match record.find? (fun kv => normKey kv.1 == normKey cleanKey) with
    | some kv => kv.2
    | none => Value.str ""

/-- Resolution of one singleton placeholder against the person row
(main.py 326-343): explicit mapping (keyed by the trimmed token) when
the mapped column exists in the row, else `resolveAuto`. -/
def resolvePersonField (cleanP : String) (mapping : List (String × String)) (record : Record) : Value :=
  match dictGet cleanP mapping with
  | some col =>
    match dictGet col record with
    | some v => v
    | none => resolveAuto cleanP record
  | none => resolveAuto cleanP record

/-- Resolution of one loop-member placeholder against a project row
(main.py 264-280).  The mapping is keyed by the raw token `lp`
(including the `p.` marker), and the code's `if mapped_col and
mapped_col in project_row_data` additionally requires the mapped column
name to be truthy, i.e. non-empty. -/
def resolveProjectField (lp cleanKey : String) (mapping : List (String × String)) (record : Record) : Value :=
  match dictGet lp mapping with
  | some col =>
    if col ≠ "" then
      match dictGet col record with
      | some v => v
      | none => resolveAuto cleanKey record
    else resolveAuto cleanKey record
  | none => resolveAuto cleanKey record

/-- The fixed fragment list of `get_sort_key` (main.py line 290). -/
def priority_keys : List String :=
  ["end_date", "start_date", "date", "time", "结束时间", "开始时间", "日期", "时间"]

/-- `any(pk in key.lower() for pk in priority_keys)` — does a column
name look like a date/time column? -/
def isDateKey (k : String) : Bool :=
  priority_keys.any (fun frag => strContainsSub (lowerStr k) frag)

/-- The first row key (in the row's own iteration order) whose
lower-cased name contains a priority fragment (main.py 293-296). -/
def detectDateField (row : Record) : Option (String × Value) :=
  row.find? (fun kv => isDateKey kv.1)

/-- The markers that make a value mean "ongoing" (main.py line 299). -/
def ongoing_markers : List String := ["至今", "Present", "Now", "Current"]

/-- `isinstance(val, str) and any(s in val for s in [...])`. -/
def isOngoingVal : Value → Bool
  | Value.str s => ongoing_markers.any (fun m => strContainsSub s m)
  | _ => false

/-- Python truthiness of a value, for `str(val) if val else ...`. -/
def pyTruthy : Value → Bool
  | Value.str s => s != ""
  | Value.num n => n != 0
  | Value.bool b => b
  | Value.temporal _ _ => true
  | Value.null => false
  | Value.dict es => !es.isEmpty
  | Value.list vs => !vs.isEmpty

/-- Python `str(val)` on the scalar values a DB row can contain.
(Nested dicts/lists never occur in a fetched row, so their rendering
is irrelevant to the pipeline and given as a placeholder.) -/
def pyStr : Value → String
  | Value.str s => s
  | Value.num n => toString n
  | Value.bool b => if b then "True" else "False"
  | Value.temporal strForm _ => strForm
  | Value.null => "None"
  | Value.dict _ => ""
  | Value.list _ => ""

/-- `get_sort_key` (main.py 288-302): find the first date-like field;
an ongoing marker sorts as the far future, a truthy value sorts as its
`str()` form, anything else (no field found, or a falsy value) as the
sentinel `"0000-00-00"`. -/
def get_sort_key (row : Record) : String :=
  match detectDateField row with
  | some kv =>
    if isOngoingVal kv.2 then "9999-12-31"
    else if pyTruthy kv.2 then pyStr kv.2 else "0000-00-00"
  | none => "0000-00-00"

/-- Lexicographic ≤ on character lists by code point — Python's `<=`
on strings. -/
def charsLe : List Char → List Char → Bool
  | [], _ => true
  | _ :: _, [] => false
  | a :: as, b :: bs => if a.toNat = b.toNat then charsLe as bs else decide (a.toNat < b.toNat)

/-- Python's `s1 <= s2` on strings: lexicographic by code point. -/
def strLe (a b : String) : Bool := charsLe a.toList b.toList

theorem charsLe_total (as : List Char) : ∀ bs, charsLe as bs = true ∨ charsLe bs as = true := by
  induction as with
  | nil => intro bs; left; rfl
  | cons a as ih =>
    intro bs
    cases bs with
    | nil => right; rfl
    | cons b bs =>
      by_cases h : a.toNat = b.toNat
      · simpa [charsLe, h] using ih bs
      · rcases Nat.lt_or_ge a.toNat b.toNat with hlt | hge
        · left; simp [charsLe, h, hlt]
        · right
          have hne : b.toNat ≠ a.toNat := fun e => h e.symm
          have hgt : b.toNat < a.toNat := lt_of_le_of_ne hge hne
          simp [charsLe, hne, hgt]

theorem charsLe_trans (as : List Char) :
    ∀ bs cs, charsLe as bs = true → charsLe bs cs = true → charsLe as cs = true := by
  induction as with
  | nil => intro bs cs _ _; rfl
  | cons a as ih =>
    intro bs cs h1 h2
    cases bs with
    | nil => simp [charsLe] at h1
    | cons b bs =>
      cases cs with
      | nil => simp [charsLe] at h2
      | cons c cs =>
        simp only [charsLe] at h1 h2 ⊢
        by_cases hab : a.toNat = b.toNat
        · by_cases hbc : b.toNat = c.toNat
          · rw [if_pos hab] at h1
            rw [if_pos hbc] at h2
            rw [if_pos (hab.trans hbc)]
            exact ih bs cs h1 h2
          · rw [if_neg hbc] at h2
            have hlt : b.toNat < c.toNat := by simpa using h2
            have hac : a.toNat ≠ c.toNat := by omega
            rw [if_neg hac]
            simp only [decide_eq_true_eq]
            omega
        · rw [if_neg hab] at h1
          have l1 : a.toNat < b.toNat := by simpa using h1
          by_cases hbc : b.toNat = c.toNat
          · have hac : a.toNat ≠ c.toNat := by omega
            rw [if_neg hac]
            simp only [decide_eq_true_eq]
            omega
          · rw [if_neg hbc] at h2
            have l2 : b.toNat < c.toNat := by simpa using h2
            have hac : a.toNat ≠ c.toNat := by omega
            rw [if_neg hac]
            simp only [decide_eq_true_eq]
            omega

/-- The order `project_rows.sort(key=get_sort_key, reverse=True)` sorts
by: `a` may stay before `b` iff `get_sort_key b <= get_sort_key a`. -/
def rowGE (a b : Record) : Prop := strLe (get_sort_key b) (get_sort_key a) = true

instance rowGE.decidableRel : DecidableRel rowGE :=
  fun a b => inferInstanceAs (Decidable (strLe (get_sort_key b) (get_sort_key a) = true))

instance rowGE.isTotal : IsTotal Record rowGE :=
  ⟨fun a b => (charsLe_total (get_sort_key b).toList (get_sort_key a).toList).imp id id⟩

instance rowGE.isTrans : IsTrans Record rowGE :=
  ⟨fun _ _ _ hab hbc => charsLe_trans _ _ _ hbc hab⟩

/-- `project_rows.sort(key=get_sort_key, reverse=True)` — a stable
descending sort by the string sort key.  Python's `list.sort` is
stable, and insertion sort with the reflexive descending relation
`rowGE` is the (unique) stable descending sort. -/
def sortRows (rows : List Record) : List Record :=
  List.insertionSort rowGE rows

/-- `lp.strip().startswith('p.')` — loop-member classification. -/
def isLoopPlaceholder (p : String) : Bool := strStartsWith (pyStrip p) "p."

/-- `lp.strip()[2:]` — the prefix-stripped context key. -/
def cleanKeyOf (p : String) : String := strDropTwo (pyStrip p)

/-- One iteration of the per-record loop (main.py 256-280): build a
fresh flat row binding every loop-member token's stripped key. -/
def buildProjectRow (placeholders : List String) (projectMapping : List (String × String))
    (recordRow : Record) : Record :=
  (placeholders.filter isLoopPlaceholder).foldl
    (fun row lp => dictInsert (cleanKeyOf lp) (resolveProjectField lp (cleanKeyOf lp) projectMapping recordRow) row)
    []

/-- The per-record loop (main.py 254-283): one row per fetched project
record, appended only when non-empty (`if project_context_row:`). -/
def buildProjectRows (placeholders : List String) (projectMapping : List (String × String))
    (records : List Record) : List Record :=
  records.filterMap (fun rec =>
    let row := buildProjectRow placeholders projectMapping rec
    if row.isEmpty then none else some row)

/-- The singleton loop (main.py 321-343): for each placeholder that is
not a loop member, write its resolved value into the context. -/
def buildSingletonCtx (placeholders : List String) (personMapping : List (String × String))
    (personRow : Record) (init : Ctx) : Ctx :=
  placeholders.foldl
    (fun ctx p =>
      let cleanP := pyStrip p
      if strStartsWith cleanP "p." then ctx
      else dictInsert cleanP (resolvePersonField cleanP personMapping personRow) ctx)
    init

mutual

/-- `clean_data` (main.py 347-356): recursively turn temporal values
into their `isoformat()` string and `None` into `""`, leaving every
other scalar unchanged and never touching dict keys. -/
def clean_data : Value → Value
  | Value.dict es => Value.dict (cleanEntries es)
  | Value.list vs => Value.list (cleanList vs)
  | Value.temporal _ iso => Value.str iso
  | Value.null => Value.str ""
  | Value.str s => Value.str s
  | Value.num n => Value.num n
  | Value.bool b => Value.bool b

/-- `clean_data` on the entries of a dict. -/
def cleanEntries : List (String × Value) → List (String × Value)
  | [] => []
  | (k, v) :: rest => (k, clean_data v) :: cleanEntries rest

/-- `clean_data` on the items of a list. -/
def cleanList : List Value → List Value
  | [] => []
  | v :: rest => clean_data v :: cleanList rest

end

/-- Steps "Auto-Sort" + "Build Context" + "clean_data" of
`_build_resume_context` (main.py 285-359), starting from the fetched
person row and project records. -/
def assembleContext (placeholders : List String) (personMapping : List (String × String))
    (personRow : Record) (projectMapping : List (String × String))
    (projectRecords : List Record) : Ctx :=
  cleanEntries (buildSingletonCtx placeholders personMapping personRow
    [("projects", Value.list
      ((sortRows (buildProjectRows placeholders projectMapping projectRecords)).map Value.dict))])

/-- The `HTTPException`s `_build_resume_context` can raise. -/
inductive BuildError where
  | templateNotFound
  | personTableNoPk
  | personNotFound
  | projectTableNoPk
deriving DecidableEq

/-- Python truthiness of `project_table : Optional[str]`. -/
def optStrTruthy : Option String → Bool
  | none => false
  | some s => s != ""

/-- Python truthiness of `project_ids : Optional[List[str]]`. -/
def optListTruthy : Option (List String) → Bool
  | none => false
  | some l => !l.isEmpty

/-- `if project_table and project_ids:` (main.py line 239). -/
def needProjects (projectTable : Option String) (projectIds : Option (List String)) : Bool :=
  optStrTruthy projectTable && optListTruthy projectIds

/-- `_build_resume_context` (main.py 191-359).  I/O results are passed
in: `templatePlaceholders` is the template lookup combined with
placeholder extraction (extraction itself never raises — a parse
failure yields `[]`); `personPk` / `projectPk` are the
`_get_primary_key` results; `personRowFetched` is the person-row fetch
result; `projectRecords` are the fetched project rows.  The checks and
their order mirror the code: missing template → 404, missing person
primary key → 400, missing person row → 404, then — only when the
project branch is taken — missing project primary key → 400. -/
def buildResumeContext
    (templatePlaceholders : Option (List String))
    (personMapping : List (String × String))
    (personPk : Option String)
    (personRowFetched : Option Record)
    (projectTable : Option String)
    (projectIds : Option (List String))
    (projectMapping : List (String × String))
    (projectPk : Option String)
    (projectRecords : List Record) : Except BuildError Ctx :=
  match templatePlaceholders with
  | none => Except.error BuildError.templateNotFound
  | some placeholders =>
    match personPk with
    | none => Except.error BuildError.personTableNoPk
    | some _ =>
      match personRowFetched with
      | none => Except.error BuildError.personNotFound
      | some personRow =>
        if needProjects projectTable projectIds then
          match projectPk with
          | none => Except.error BuildError.projectTableNoPk
          | some _ =>
            Except.ok (assembleContext placeholders personMapping personRow projectMapping projectRecords)
        else
          Except.ok (assembleContext placeholders personMapping personRow projectMapping [])

/-- Did assembly succeed? -/
def isOkE : Except BuildError Ctx → Bool
  | Except.ok _ => true
  | Except.error _ => false

/-- Is a value a Python list? -/
def isListVal : Value → Bool
  | Value.list _ => true
  | _ => false

end Resume

/-! ### Helper lemmas about the embedded dictionaries -/

namespace Resume

theorem dictGet_dictInsert_self {β : Type} (k : String) (v : β) (d : List (String × β)) :
    dictGet k (dictInsert k v d) = some v := by
  induction d with
  | nil => simp [dictGet, dictInsert]
  | cons kv rest ih =>
    obtain ⟨k2, v2⟩ := kv
    by_cases h : k2 = k
    · simp [dictGet, dictInsert, h]
    · simp [dictGet, dictInsert, h, ih]

theorem dictGet_dictInsert_ne {β : Type} (k k2 : String) (v : β) (d : List (String × β))
    (h : k2 ≠ k) : dictGet k2 (dictInsert k v d) = dictGet k2 d := by
  induction d with
  | nil => simp [dictGet, dictInsert, Ne.symm h]
  | cons kv rest ih =>
    obtain ⟨k3, v3⟩ := kv
    by_cases h3 : k3 = k
    · subst h3
      simp [dictGet, dictInsert, Ne.symm h]
    · simp [dictGet, dictInsert, h3, ih]

theorem dictGet_dictInsert_isSome {β : Type} (k k2 : String) (v : β) (d : List (String × β)) :
    (dictGet k2 (dictInsert k v d)).isSome = true ↔
      (dictGet k2 d).isSome = true ∨ k2 = k := by
  by_cases h : k2 = k
  · subst h
    simp [dictGet_dictInsert_self]
  · rw [dictGet_dictInsert_ne k k2 v d h]
    simp [h]

theorem dictGet_cleanEntries (k : String) (es : List (String × Value)) :
    dictGet k (cleanEntries es) = (dictGet k es).map clean_data := by
  induction es with
  | nil => simp [dictGet, cleanEntries]
  | cons kv rest ih =>
    obtain ⟨k2, v⟩ := kv
    by_cases h : k2 = k
    · simp [dictGet, cleanEntries, h]
    · simp [dictGet, cleanEntries, h, ih]

theorem cleanEntries_eq_map (es : List (String × Value)) :
    cleanEntries es = es.map (fun kv => (kv.1, clean_data kv.2)) := by
  induction es with
  | nil => rfl
  | cons kv rest ih =>
    obtain ⟨k, v⟩ := kv
    simp [cleanEntries, ih]

theorem cleanList_eq_map (vs : List Value) :
    cleanList vs = vs.map clean_data := by
  induction vs with
  | nil => rfl
  | cons v rest ih => simp [cleanList, ih]

end Resume

/-! ### Helper lemmas about the singleton and repeating-row loops -/

namespace Resume

theorem buildSingletonCtx_cons (p : String) (l : List String)
    (pm : List (String × String)) (prow : Record) (init : Ctx) :
    buildSingletonCtx (p :: l) pm prow init =
      buildSingletonCtx l pm prow
        (if strStartsWith (pyStrip p) "p." then init
         else dictInsert (pyStrip p) (resolvePersonField (pyStrip p) pm prow) init) := by
  simp only [buildSingletonCtx, List.foldl_cons]

theorem buildSingletonCtx_get_preserved (l : List String)
    (pm : List (String × String)) (prow : Record) (k : String) :
    ∀ init : Ctx, dictGet k init = some (resolvePersonField k pm prow) →
      dictGet k (buildSingletonCtx l pm prow init) = some (resolvePersonField k pm prow) := by
  induction l with
  | nil => intro init h; exact h
  | cons p rest ih =>
    intro init h
    rw [buildSingletonCtx_cons]
    by_cases hl : strStartsWith (pyStrip p) "p." = true
    · rw [if_pos hl]; exact ih init h
    · rw [if_neg hl]
      by_cases hk : pyStrip p = k
      · subst hk
        exact ih _ (dictGet_dictInsert_self _ _ _)
      · refine ih _ ?_
        rw [dictGet_dictInsert_ne _ _ _ _ (fun e => hk e.symm)]
        exact h

theorem buildSingletonCtx_get_mem (l : List String)
    (pm : List (String × String)) (prow : Record) (p : String)
    (hp : p ∈ l) (hloop : strStartsWith (pyStrip p) "p." = false) :
    ∀ init : Ctx, dictGet (pyStrip p) (buildSingletonCtx l pm prow init) =
      some (resolvePersonField (pyStrip p) pm prow) := by
  induction l with
  | nil => cases hp
  | cons q rest ih =>
    intro init
    rw [buildSingletonCtx_cons]
    rcases List.mem_cons.mp hp with hq | hq
    · subst hq
      rw [if_neg (by simp [hloop])]
      exact buildSingletonCtx_get_preserved rest pm prow (pyStrip p) _
        (dictGet_dictInsert_self _ _ _)
    · exact ih hq _

theorem buildSingletonCtx_get_other (l : List String)
    (pm : List (String × String)) (prow : Record) (k : String)
    (h : ∀ p ∈ l, strStartsWith (pyStrip p) "p." = true ∨ pyStrip p ≠ k) :
    ∀ init : Ctx, dictGet k (buildSingletonCtx l pm prow init) = dictGet k init := by
  induction l with
  | nil => intro init; rfl
  | cons q rest ih =>
    intro init
    rw [buildSingletonCtx_cons]
    have hrest : ∀ p ∈ rest, strStartsWith (pyStrip p) "p." = true ∨ pyStrip p ≠ k :=
      fun p hp => h p (List.mem_cons_of_mem q hp)
    rcases h q (List.mem_cons_self q rest) with hq | hq
    · rw [if_pos hq]; exact ih hrest init
    · by_cases hl : strStartsWith (pyStrip q) "p." = true
      · rw [if_pos hl]; exact ih hrest init
      · rw [if_neg hl, ih hrest _, dictGet_dictInsert_ne _ _ _ _ (Ne.symm hq)]

theorem buildSingletonCtx_isSome_mono (l : List String)
    (pm : List (String × String)) (prow : Record) (k : String) :
    ∀ init : Ctx, (dictGet k init).isSome = true →
      (dictGet k (buildSingletonCtx l pm prow init)).isSome = true := by
  induction l with
  | nil => intro init h; exact h
  | cons q rest ih =>
    intro init h
    rw [buildSingletonCtx_cons]
    by_cases hl : strStartsWith (pyStrip q) "p." = true
    · rw [if_pos hl]; exact ih init h
    · rw [if_neg hl]
      exact ih _ ((dictGet_dictInsert_isSome _ _ _ _).mpr (Or.inl h))

end Resume

namespace Resume

theorem projRowFold_get_isSome (pjm : List (String × String)) (rec : Record)
    (lps : List String) (k : String) :
    ∀ init : Record,
      (dictGet k (lps.foldl
        (fun row lp => dictInsert (cleanKeyOf lp)
          (resolveProjectField lp (cleanKeyOf lp) pjm rec) row) init)).isSome = true ↔
        ((dictGet k init).isSome = true ∨ k ∈ lps.map cleanKeyOf) := by
  induction lps with
  | nil => intro init; simp
  | cons lp rest ih =>
    intro init
    simp only [List.foldl_cons, List.map_cons, List.mem_cons]
    rw [ih]
    rw [dictGet_dictInsert_isSome]
    tauto

theorem buildProjectRow_get_isSome (placeholders : List String)
    (pjm : List (String × String)) (rec : Record) (k : String) :
    (dictGet k (buildProjectRow placeholders pjm rec)).isSome = true ↔
      k ∈ (placeholders.filter isLoopPlaceholder).map cleanKeyOf := by
  unfold buildProjectRow
  rw [projRowFold_get_isSome]
  simp [dictGet]

theorem buildProjectRow_ne_nil (placeholders : List String)
    (pjm : List (String × String)) (rec : Record)
    (h : placeholders.filter isLoopPlaceholder ≠ []) :
    buildProjectRow placeholders pjm rec ≠ [] := by
  obtain ⟨lp, hlp⟩ := List.exists_mem_of_ne_nil _ h
  intro hnil
  have := (buildProjectRow_get_isSome placeholders pjm rec (cleanKeyOf lp)).mpr
    (List.mem_map_of_mem cleanKeyOf hlp)
  rw [hnil] at this
  simp [dictGet] at this

theorem buildProjectRow_nil (placeholders : List String)
    (pjm : List (String × String)) (rec : Record)
    (h : placeholders.filter isLoopPlaceholder = []) :
    buildProjectRow placeholders pjm rec = [] := by
  unfold buildProjectRow
  rw [h]
  rfl

theorem buildProjectRows_length (placeholders : List String)
    (pjm : List (String × String)) (recs : List Record)
    (h : placeholders.filter isLoopPlaceholder ≠ []) :
    (buildProjectRows placeholders pjm recs).length = recs.length := by
  induction recs with
  | nil => rfl
  | cons rec rest ih =>
    unfold buildProjectRows at ih ⊢
    rw [List.filterMap_cons]
    have hne := buildProjectRow_ne_nil placeholders pjm rec h
    rw [if_neg (by simpa [List.isEmpty_iff] using hne)]
    simp [ih]

theorem buildProjectRows_nil (placeholders : List String)
    (pjm : List (String × String)) (recs : List Record)
    (h : placeholders.filter isLoopPlaceholder = []) :
    buildProjectRows placeholders pjm recs = [] := by
  induction recs with
  | nil => rfl
  | cons rec rest ih =>
    unfold buildProjectRows at ih ⊢
    rw [List.filterMap_cons]
    rw [buildProjectRow_nil placeholders pjm rec h]
    simpa using ih

theorem buildProjectRows_mem (placeholders : List String)
    (pjm : List (String × String)) (recs : List Record) (row : Record)
    (h : row ∈ buildProjectRows placeholders pjm recs) :
    ∃ rec ∈ recs, row = buildProjectRow placeholders pjm rec := by
  unfold buildProjectRows at h
  obtain ⟨rec, hrec, heq⟩ := List.mem_filterMap.mp h
  refine ⟨rec, hrec, ?_⟩
  by_cases he : (buildProjectRow placeholders pjm rec).isEmpty
  · simp [he] at heq
  · simp only [he, if_neg, Bool.false_eq_true, not_false_eq_true, if_false] at heq
    exact (Option.some.injEq _ _ ▸ heq).symm

end Resume

/-! ### Resolution lemmas -/

namespace Resume

theorem resolveAuto_fallback (key : String) (row : Record)
    (h2 : dictGet key row = none)
    (h3 : row.find? (fun kv => normKey kv.1 == normKey key) = none) :
    resolveAuto key row = Value.str "" := by
  unfold resolveAuto
  rw [h2, h3]

theorem resolvePersonField_fallback (key : String) (pm : List (String × String)) (row : Record)
    (h1 : ∀ col, dictGet key pm = some col → dictGet col row = none)
    (h2 : dictGet key row = none)
    (h3 : row.find? (fun kv => normKey kv.1 == normKey key) = none) :
    resolvePersonField key pm row = Value.str "" := by
  cases hm : dictGet key pm with
  | none =>
    simp only [resolvePersonField, hm]
    exact resolveAuto_fallback key row h2 h3
  | some col =>
    simp only [resolvePersonField, hm, h1 col hm]
    exact resolveAuto_fallback key row h2 h3

end Resume

/-! ### The claims -/

namespace Resume

/-- C8: `clean_data` recursively converts temporal values to their
ISO-8601 string form and `None` to the empty string, leaves every
other scalar unchanged, and never alters any mapping key — the dict
case maps over the values only (`kv.1` is passed through untouched),
recursively through nested dicts and lists. -/
theorem C8_value_normalization :
    (∀ es, clean_data (Value.dict es) =
      Value.dict (es.map (fun kv => (kv.1, clean_data kv.2)))) ∧
    (∀ vs, clean_data (Value.list vs) = Value.list (vs.map clean_data)) ∧
    (∀ sf iso, clean_data (Value.temporal sf iso) = Value.str iso) ∧
    clean_data Value.null = Value.str "" ∧
    (∀ s, clean_data (Value.str s) = Value.str s) ∧
    (∀ n, clean_data (Value.num n) = Value.num n) ∧
    (∀ b, clean_data (Value.bool b) = Value.bool b) := by
  refine ⟨fun es => ?_, fun vs => ?_, fun sf iso => rfl, rfl, fun s => rfl, fun n => rfl,
    fun b => rfl⟩
  · rw [show clean_data (Value.dict es) = Value.dict (cleanEntries es) from rfl,
      cleanEntries_eq_map]
  · rw [show clean_data (Value.list vs) = Value.list (cleanList vs) from rfl,
      cleanList_eq_map]

/-- C5: the temporal field used by `get_sort_key` is exactly the first
entry of the row, in the row's own iteration order, whose lower-cased
key contains one of the fixed priority fragments (`end_date`,
`start_date`, `date`, `time` and their Chinese counterparts, in that
order in the list); detection is a function of the single row, so rows
need not share a common date column name. -/
theorem C5_date_field_detection (row : Record) (k : String) (v : Value) :
    detectDateField row = some (k, v) ↔
      ∃ pre post, row = pre ++ (k, v) :: post ∧ isDateKey k = true ∧
        ∀ kv ∈ pre, isDateKey kv.1 = false := by
  unfold detectDateField
  rw [List.find?_eq_some]
  constructor
  · rintro ⟨hp, pre, post, heq, hpre⟩
    exact ⟨pre, post, heq, by simpa using hp, fun kv hkv => by simpa using hpre kv hkv⟩
  · rintro ⟨pre, post, heq, hk, hpre⟩
    exact ⟨by simpa using hk, pre, post, heq, fun kv hkv => by simpa using hpre kv hkv⟩

/-- Witness for C5 at a concrete row: the first date-like key in row
order is detected. -/
theorem C5_date_field_detection_witness :
    detectDateField [("title", Value.str "x"), ("end_date", Value.str "2020-02")] =
      some ("end_date", Value.str "2020-02") :=
  (C5_date_field_detection _ _ _).mpr
    ⟨[("title", Value.str "x")], [], rfl, rfl, by decide⟩

/-- C3: when the exact tier fails, both the context key and the record
keys are normalised by lower-casing and removing underscores, and the
value of the first record key (in record iteration order) with an equal
normalisation is returned — later equally-normalising keys are ignored,
no ambiguity is detected.  When the record contains the context key
exactly, the exact tier wins and fuzzy matching is never attempted. -/
theorem C3_fuzzy_auto_match (key : String) (row pre post : Record) (k : String) (v w : Value) :
    (dictGet key row = none →
      row = pre ++ (k, v) :: post →
      normKey k = normKey key →
      (∀ kv ∈ pre, normKey kv.1 ≠ normKey key) →
      resolveAuto key row = v) ∧
    (dictGet key row = some w → resolveAuto key row = w) := by
  constructor
  · intro hne heq hnk hpre
    have hfind : row.find? (fun kv => normKey kv.1 == normKey key) = some (k, v) := by
      rw [List.find?_eq_some]
      refine ⟨by simpa using hnk, pre, post, heq, fun kv hkv => ?_⟩
      simpa using hpre kv hkv
    simp only [resolveAuto, hne, hfind]
  · intro hs
    simp only [resolveAuto, hs]

/-- Witness for C3: `full_name` fuzzy-matches `FullName` and returns
the first of two equally-normalising columns; with an exact `full_name`
column present the exact value wins. -/
theorem C3_fuzzy_auto_match_witness :
    resolveAuto "full_name" [("FullName", Value.str "Alice"), ("Full_Name", Value.str "Bob")] =
      Value.str "Alice" ∧
    resolveAuto "full_name" [("full_name", Value.str "Eve"), ("FullName", Value.str "Alice")] =
      Value.str "Eve" :=
  ⟨(C3_fuzzy_auto_match "full_name" _ [] [("Full_Name", Value.str "Bob")] "FullName"
      (Value.str "Alice") Value.null).1 rfl rfl rfl (by simp),
   (C3_fuzzy_auto_match "full_name" [("full_name", Value.str "Eve"), ("FullName", Value.str "Alice")]
      [] [] "" Value.null (Value.str "Eve")).2 rfl⟩

/-- C2: the explicit-mapping tier is tried first: whenever the raw
placeholder token is a key of the explicit mapping and the mapped
column exists in the record (for the project branch the code's
truthiness guard additionally requires a non-empty column name), the
mapped column's value is returned — even when the context key is also
present as an exact-match column with a different value. -/
theorem C2_resolution_tier_priority (key lp col : String) (v w : Value)
    (pm pjm : List (String × String)) (row : Record)
    (hm : dictGet key pm = some col) (hm2 : dictGet lp pjm = some col)
    (hcol : dictGet col row = some v) (hexact : dictGet key row = some w) :
    resolvePersonField key pm row = v ∧
    (col ≠ "" → resolveProjectField lp key pjm row = v) := by
  constructor
  · simp only [resolvePersonField, hm, hcol]
  · intro hc
    simp only [resolveProjectField, hm2, if_pos hc, hcol]

/-- Witness for C2: the explicitly mapped column's value `Mapped` wins
over the exact-match column's different value `Exact`, in both the
person and the project resolution branches. -/
theorem C2_resolution_tier_priority_witness :
    resolvePersonField "name" [("name", "col_a")]
      [("col_a", Value.str "Mapped"), ("name", Value.str "Exact")] = Value.str "Mapped" ∧
    resolveProjectField "p.name" "name" [("p.name", "col_a")]
      [("col_a", Value.str "Mapped"), ("name", Value.str "Exact")] = Value.str "Mapped" := by
  have h := C2_resolution_tier_priority "name" "p.name" "col_a" (Value.str "Mapped")
    (Value.str "Exact") [("name", "col_a")] [("p.name", "col_a")]
    [("col_a", Value.str "Mapped"), ("name", Value.str "Exact")] rfl rfl rfl rfl
  exact ⟨h.1, h.2 (by decide)⟩

end Resume

namespace Resume

/-- C4: if the template declares at least one loop-member placeholder,
exactly one row per fetched repeating record is appended (even when
every value is the empty-string fallback), and each row's key set is
exactly the set of prefix-stripped loop-member tokens; with zero
loop-member placeholders the repeating-group sequence is empty no
matter how many records were supplied. -/
theorem C4_repeating_row_presence (placeholders : List String)
    (pjm : List (String × String)) (recs : List Record) :
    (placeholders.filter isLoopPlaceholder ≠ [] →
      (buildProjectRows placeholders pjm recs).length = recs.length ∧
      ∀ row ∈ buildProjectRows placeholders pjm recs, ∀ k : String,
        (dictGet k row).isSome = true ↔
          k ∈ (placeholders.filter isLoopPlaceholder).map cleanKeyOf) ∧
    (placeholders.filter isLoopPlaceholder = [] →
      buildProjectRows placeholders pjm recs = []) := by
  constructor
  · intro h
    refine ⟨buildProjectRows_length placeholders pjm recs h, ?_⟩
    intro row hrow k
    obtain ⟨rec, _, heq⟩ := buildProjectRows_mem placeholders pjm recs row hrow
    rw [heq]
    exact buildProjectRow_get_isSome placeholders pjm rec k
  · exact buildProjectRows_nil placeholders pjm recs

/-- Witness for C4: tokens `["name", "p.title", "p.role"]` with two
records give exactly two rows; token list `["name"]` (no loop members)
gives no rows at all for the same two records. -/
theorem C4_repeating_row_presence_witness :
    (buildProjectRows ["name", "p.title", "p.role"] []
      [[("title", Value.str "A")], [("x", Value.str "B")]]).length = 2 ∧
    buildProjectRows ["name"] [] [[("title", Value.str "A")], [("x", Value.str "B")]] = [] :=
  ⟨((C4_repeating_row_presence ["name", "p.title", "p.role"] []
      [[("title", Value.str "A")], [("x", Value.str "B")]]).1 (by decide)).1,
   (C4_repeating_row_presence ["name"] []
      [[("title", Value.str "A")], [("x", Value.str "B")]]).2 rfl⟩

/-- C1: completeness of the assembled context.  Every singleton
placeholder's trimmed token is a key of the assembled context; every
loop-member placeholder's prefix-stripped token is a key of every row
of the repeating-group sequence; and a singleton placeholder failing
all three resolution tiers is bound to the empty string rather than
being absent. -/
theorem C1_context_completeness (placeholders : List String)
    (pm : List (String × String)) (prow : Record)
    (pjm : List (String × String)) (recs : List Record) (p : String)
    (hp : p ∈ placeholders) :
    (strStartsWith (pyStrip p) "p." = false →
      (dictGet (pyStrip p) (assembleContext placeholders pm prow pjm recs)).isSome = true) ∧
    (strStartsWith (pyStrip p) "p." = true →
      ∀ row ∈ sortRows (buildProjectRows placeholders pjm recs),
        (dictGet (strDropTwo (pyStrip p)) row).isSome = true) ∧
    (strStartsWith (pyStrip p) "p." = false →
      (∀ col, dictGet (pyStrip p) pm = some col → dictGet col prow = none) →
      dictGet (pyStrip p) prow = none →
      prow.find? (fun kv => normKey kv.1 == normKey (pyStrip p)) = none →
      dictGet (pyStrip p) (assembleContext placeholders pm prow pjm recs) =
        some (Value.str "")) := by
  refine ⟨?_, ?_, ?_⟩
  · intro hloop
    unfold assembleContext
    rw [dictGet_cleanEntries, buildSingletonCtx_get_mem placeholders pm prow p hp hloop]
    rfl
  · intro hloop row hrow
    rw [show strDropTwo (pyStrip p) = cleanKeyOf p from rfl]
    rw [show sortRows (buildProjectRows placeholders pjm recs) =
      List.insertionSort rowGE (buildProjectRows placeholders pjm recs) from rfl] at hrow
    rw [List.mem_insertionSort] at hrow
    obtain ⟨rec, _, heq⟩ := buildProjectRows_mem placeholders pjm recs row hrow
    rw [heq, buildProjectRow_get_isSome]
    exact List.mem_map_of_mem cleanKeyOf (List.mem_filter.mpr ⟨hp, hloop⟩)
  · intro hloop h1 h2 h3
    unfold assembleContext
    rw [dictGet_cleanEntries, buildSingletonCtx_get_mem placeholders pm prow p hp hloop,
      resolvePersonField_fallback (pyStrip p) pm prow h1 h2 h3]
    rfl

/-- Witness for C1: a placeholder with no matching column in any tier
is still a key of the assembled context, bound to the empty string. -/
theorem C1_context_completeness_witness :
    dictGet "unmappable_field"
      (assembleContext ["unmappable_field", "p.title"] [] [("id", Value.str "1")] [] []) =
      some (Value.str "") :=
  (C1_context_completeness ["unmappable_field", "p.title"] [] [("id", Value.str "1")] [] []
      "unmappable_field" (by decide)).2.2 (by decide) (fun _ h => nomatch h) rfl rfl

end Resume

namespace Resume

/-- Counterexample to C6 as stated: the claim says any non-ongoing
detected value is compared by its raw string form, but the code maps a
falsy detected value (here the empty string) to the sentinel
`"0000-00-00"`.  Raw-string descending order would put the `"0"` row
first (since `"0" > ""` lexicographically, witnessed by
`strLe "0" "" = false`), yet the code keeps the `""` row first because
its key is the sentinel. -/
theorem C6_counterexample :
    detectDateField [("end_date", Value.str "")] = some ("end_date", Value.str "") ∧
    isOngoingVal (Value.str "") = false ∧
    strLe "0" "" = false ∧
    sortRows [[("end_date", Value.str "")], [("end_date", Value.str "0")]] =
      [[("end_date", Value.str "")], [("end_date", Value.str "0")]] :=
  ⟨rfl, rfl, rfl, rfl⟩

/-- C6 (amended): the repeating rows are ordered descending by the
string sort key; a detected value containing an ongoing marker yields
the maximal date `"9999-12-31"`, any other *truthy* detected value is
used in its raw `str()` form (lexicographic comparison, not
calendar-aware), and a falsy detected value (empty string, null, zero,
false) yields the sentinel `"0000-00-00"`; in particular the
`"至今"`/`"Present"` row sorts first, then `"2022-06"`, then
`"2020-01"`. -/
theorem C6_sort_ordering_amended (row : Record) (k : String) (v : Value)
    (h : detectDateField row = some (k, v)) (rows : List Record) :
    (isOngoingVal v = true → get_sort_key row = "9999-12-31") ∧
    (isOngoingVal v = false → pyTruthy v = true → get_sort_key row = pyStr v) ∧
    (isOngoingVal v = false → pyTruthy v = false → get_sort_key row = "0000-00-00") ∧
    List.Sorted rowGE (sortRows rows) ∧
    sortRows [[("end_date", Value.str "2020-01")], [("end_date", Value.str "2022-06")],
        [("end_date", Value.str "至今")]] =
      [[("end_date", Value.str "至今")], [("end_date", Value.str "2022-06")],
        [("end_date", Value.str "2020-01")]] := by
  refine ⟨?_, ?_, ?_, List.sorted_insertionSort rowGE rows, rfl⟩
  · intro ho; simp [get_sort_key, h, ho]
  · intro ho ht; simp [get_sort_key, h, ho, ht]
  · intro ho ht; simp [get_sort_key, h, ho, ht]

/-- Witness for C6 (amended): the ongoing marker `"至今"` maps to the
maximal date and a truthy plain value is used in raw string form. -/
theorem C6_sort_ordering_amended_witness :
    get_sort_key [("end_date", Value.str "至今")] = "9999-12-31" ∧
    get_sort_key [("end_date", Value.str "2022-06")] = "2022-06" :=
  ⟨(C6_sort_ordering_amended [("end_date", Value.str "至今")] "end_date"
      (Value.str "至今") rfl []).1 rfl,
   (C6_sort_ordering_amended [("end_date", Value.str "2022-06")] "end_date"
      (Value.str "2022-06") rfl []).2.1 rfl rfl⟩

/-- Counterexample to C7 as stated: a row with no detected temporal
field does not sink below *every* dated row.  The undetected row's
sentinel key `"0000-00-00"` beats the detected key `"0"` of the second
row, so the undetected row stays first in the descending output. -/
theorem C7_counterexample :
    detectDateField [("title", Value.str "x")] = none ∧
    (detectDateField [("end_date", Value.str "0")]).isSome = true ∧
    sortRows [[("title", Value.str "x")], [("end_date", Value.str "0")]] =
      [[("title", Value.str "x")], [("end_date", Value.str "0")]] :=
  ⟨rfl, rfl, rfl⟩

/-- C7 (amended): a row in which no key's lower-cased name contains a
priority fragment gets the fixed sentinel sort key `"0000-00-00"`, and
therefore appears after every row whose sort key exceeds the sentinel
(in particular after any row with an ordinary four-digit-year date),
though not after rows whose key sorts below the sentinel. -/
theorem C7_undetected_rows_amended (row other : Record)
    (h : detectDateField row = none)
    (hgt : strLe (get_sort_key other) "0000-00-00" = false) :
    get_sort_key row = "0000-00-00" ∧
    sortRows [row, other] = [other, row] ∧
    sortRows [other, row] = [other, row] := by
  have hkey : get_sort_key row = "0000-00-00" := by simp [get_sort_key, h]
  have hnot : ¬ rowGE row other := by
    unfold rowGE
    rw [hkey, hgt]
    simp
  have hyes : rowGE other row := by
    unfold rowGE
    rw [hkey]
    rcases charsLe_total (get_sort_key other).toList ("0000-00-00" : String).toList with ht | ht
    · rw [show charsLe (get_sort_key other).toList ("0000-00-00" : String).toList =
        strLe (get_sort_key other) "0000-00-00" from rfl, hgt] at ht
      simp at ht
    · exact ht
  refine ⟨hkey, ?_, ?_⟩
  · show List.insertionSort rowGE [row, other] = [other, row]
    simp only [List.insertionSort, List.orderedInsert]
    rw [if_neg hnot]
  · show List.insertionSort rowGE [other, row] = [other, row]
    simp only [List.insertionSort, List.orderedInsert]
    rw [if_pos hyes]

/-- Witness for C7 (amended): an undetected row sorts after a row
dated `"2020-01"`. -/
theorem C7_undetected_rows_amended_witness :
    sortRows [[("title", Value.str "x")], [("end_date", Value.str "2020-01")]] =
      [[("end_date", Value.str "2020-01")], [("title", Value.str "x")]] :=
  (C7_undetected_rows_amended [("title", Value.str "x")]
      [("end_date", Value.str "2020-01")] rfl rfl).2.1

end Resume

namespace Resume

/-- C9: `_build_resume_context` raises exactly for the structural
preconditions — missing template, missing person primary key, missing
person record, and (only when the project branch is taken) missing
project primary key.  The right-hand side does not mention the
placeholder list, the mappings or the row contents at all, so a
placeholder failing every resolution tier can never cause an error:
assembly succeeds and returns a complete context whenever the
structural preconditions hold. -/
theorem C9_error_taxonomy (tpl : Option (List String)) (pm : List (String × String))
    (ppk : Option String) (prow : Option Record) (ptab : Option String)
    (pids : Option (List String)) (pjm : List (String × String))
    (pjpk : Option String) (recs : List Record) :
    isOkE (buildResumeContext tpl pm ppk prow ptab pids pjm pjpk recs) = true ↔
      (tpl.isSome = true ∧ ppk.isSome = true ∧ prow.isSome = true ∧
        (needProjects ptab pids = true → pjpk.isSome = true)) := by
  cases tpl with
  | none => simp [buildResumeContext, isOkE]
  | some placeholders =>
    cases ppk with
    | none => simp [buildResumeContext, isOkE]
    | some ppk0 =>
      cases prow with
      | none => simp [buildResumeContext, isOkE]
      | some prow0 =>
        by_cases hn : needProjects ptab pids = true
        · cases pjpk with
          | none => simp [buildResumeContext, isOkE, hn]
          | some pjpk0 => simp [buildResumeContext, isOkE, hn]
        · simp [buildResumeContext, isOkE, hn]

/-- Witness for C9: with template, person primary key and person row
all present and no project branch requested, assembly succeeds. -/
theorem C9_error_taxonomy_witness :
    isOkE (buildResumeContext (some ["name"]) [] (some "id")
      (some [("name", Value.str "A")]) none none [] none []) = true :=
  (C9_error_taxonomy (some ["name"]) [] (some "id") (some [("name", Value.str "A")])
      none none [] none []).mpr ⟨rfl, rfl, rfl, fun hcon => nomatch hcon⟩

/-- Counterexample to C10 as stated: when the template declares a
singleton placeholder literally named `projects`, the singleton loop
overwrites the repeating-group list — the returned context binds
`projects` to the empty *string* (the resolution fallback), which is
not a list. -/
theorem C10_counterexample :
    buildResumeContext (some ["projects"]) [] (some "id") (some [("id", Value.str "1")])
      none none [] none [] = Except.ok [("projects", Value.str "")] ∧
    isListVal (Value.str "") = false :=
  ⟨rfl, rfl⟩

/-- C10 (amended): every context returned by a successful assembly
contains the top-level key `projects`; provided no singleton
placeholder's trimmed token is literally `projects`, that key is bound
to a list, and to the empty list when no repeating table or no
repeating record ids were supplied. -/
theorem C10_projects_key_amended (placeholders : List String)
    (pm : List (String × String)) (ppk : String) (prow : Record)
    (ptab : Option String) (pids : Option (List String)) (pjm : List (String × String))
    (pjpk : Option String) (recs : List Record) (ctx : Ctx)
    (hok : buildResumeContext (some placeholders) pm (some ppk) (some prow)
      ptab pids pjm pjpk recs = Except.ok ctx) :
    (dictGet "projects" ctx).isSome = true ∧
    ((∀ p ∈ placeholders, strStartsWith (pyStrip p) "p." = true ∨ pyStrip p ≠ "projects") →
      (∀ v, dictGet "projects" ctx = some v → isListVal v = true) ∧
      (needProjects ptab pids = false → dictGet "projects" ctx = some (Value.list []))) := by
  have hctx : ∃ recs2 : List Record, ctx = assembleContext placeholders pm prow pjm recs2 ∧
      (needProjects ptab pids = false → recs2 = []) := by
    by_cases hn : needProjects ptab pids = true
    · cases pjpk with
      | none => simp [buildResumeContext, hn] at hok
      | some pk0 =>
        refine ⟨recs, ?_, fun hfalse => ?_⟩
        · simp only [buildResumeContext, if_pos hn, Except.ok.injEq] at hok
          exact hok.symm
        · rw [hn] at hfalse; cases hfalse
    · refine ⟨[], ?_, fun _ => rfl⟩
      simp only [buildResumeContext, if_neg hn, Except.ok.injEq] at hok
      exact hok.symm
  obtain ⟨recs2, hctx2, hrecs2⟩ := hctx
  subst hctx2
  constructor
  · unfold assembleContext
    rw [dictGet_cleanEntries]
    have hin : (dictGet "projects" ([("projects", Value.list
        ((sortRows (buildProjectRows placeholders pjm recs2)).map Value.dict))] : Ctx)).isSome
        = true := by
      simp [dictGet]
    have hmono := buildSingletonCtx_isSome_mono placeholders pm prow "projects" _ hin
    obtain ⟨y, hy⟩ := Option.isSome_iff_exists.mp hmono
    rw [hy]
    rfl
  · intro hno
    have hbase : dictGet "projects" (buildSingletonCtx placeholders pm prow
        [("projects", Value.list
          ((sortRows (buildProjectRows placeholders pjm recs2)).map Value.dict))]) =
        some (Value.list ((sortRows (buildProjectRows placeholders pjm recs2)).map Value.dict)) := by
      rw [buildSingletonCtx_get_other placeholders pm prow "projects" hno]
      simp [dictGet]
    constructor
    · intro v hv
      unfold assembleContext at hv
      rw [dictGet_cleanEntries, hbase] at hv
      have hveq : clean_data (Value.list
          ((sortRows (buildProjectRows placeholders pjm recs2)).map Value.dict)) = v := by
        simpa using hv
      rw [← hveq]
      rfl
    · intro hnp
      have hrecs0 : recs2 = [] := hrecs2 hnp
      subst hrecs0
      unfold assembleContext
      rw [dictGet_cleanEntries, hbase]
      rfl

/-- Witness for C10 (amended): a successful assembly with no repeating
table supplied binds `projects` to the empty list. -/
theorem C10_projects_key_amended_witness :
    dictGet "projects" [("projects", Value.list []), ("name", Value.str "A")] =
      some (Value.list []) :=
  ((C10_projects_key_amended ["name"] [] "id" [("name", Value.str "A")] none none [] none []
      [("projects", Value.list []), ("name", Value.str "A")] rfl).2 (by decide)).2 rfl

end Resume
